/-
Verification of the duplicate-detection and consolidation engine
(`src/services/deduplication.ts`).

The TypeScript source is shallowly embedded: strings are lists of
characters, JavaScript numbers appearing as similarity scores are
rationals, the imperative single-row Levenshtein loop is translated into
structurally recursive functions threading the `costs` array, and the
language-model oracle together with the lazily constructed API client is
made an explicit parameter (the module-level `anthropic` handle and the
`ANTHROPIC_API_KEY` environment variable collapse into a single
`hasClient : Bool` telling whether `getAnthropicClient` succeeds; the
oracle's possible behaviours, including thrown errors and malformed
payloads, are enumerated by small inductive types).
-/
import Mathlib

namespace Dedup

/-- Reference recursive Levenshtein distance (unit-cost insert, delete,
substitute) between two character lists.  Used as the specification that
the imperative loop of `getLevenshteinDistance` is proved to compute. -/
def lev : List Char → List Char → Nat
  | [], ys => ys.length
  | _ :: xs, [] => xs.length + 1
  | x :: xs, y :: ys =>
      if x = y then lev xs ys
      else 1 + min (lev xs ys) (min (lev (x :: xs) ys) (lev xs (y :: ys)))
termination_by xs ys => xs.length + ys.length
decreasing_by all_goals simp_arith

/-- Inner `j`-loop of the source's `getLevenshteinDistance`.  The JavaScript
loop walks `j = 1 .. s2.length` over a single mutable `costs` array, reading
`costs[j-1]` and `costs[j]`, overwriting `costs[j-1]` with `lastValue` and
carrying the freshly computed `newValue` in `lastValue`; after the loop the
final `lastValue` is written to `costs[s2.length]`.  Here the still-unread
tail of `costs` (starting at position `j-1`) is threaded as a list together
with the remaining characters of `s2`, and the overwritten prefix is emitted
as the output list. -/
def rowAux (x : Char) : List Char → List Nat → Nat → List Nat
  | y :: ys, cprev :: cj :: rest, lastValue =>
      let newValue := if x = y then cprev else min (min cprev lastValue) cj + 1
      lastValue :: rowAux x ys (cj :: rest) newValue
  | _, _, lastValue => [lastValue]

/-- Outer `i`-loop of the source's `getLevenshteinDistance`: one `rowAux`
pass per character of `s1`, with `lastValue` initialised to the row
number `i`. -/
def levRows (s2 : List Char) : List Char → Nat → List Nat → List Nat
  | [], _, costs => costs
  | x :: xs, i, costs => levRows s2 xs (i + 1) (rowAux x s2 costs i)

/-- Levenshtein distance calculation (`getLevenshteinDistance` in the
source): the `i = 0` pass initialises `costs[j] = j`, the remaining passes
are `rowAux` rows, and the result is `costs[s2.length]`. -/
def getLevenshteinDistance (s1 s2 : List Char) : Nat :=
  (levRows s2 s1 1 (List.range (s2.length + 1))).getD s2.length 0

/-- The row of reference distances held in `costs` while the loop runs:
`p` is the (reversed) prefix of `s1` already consumed, `q` the (reversed)
prefix of `s2` to the left of the current column, `ys` the remaining
characters of `s2`. -/
def rowFrom (p q : List Char) : List Char → List Nat
  | [] => [lev p q]
  | y :: ys => lev p q :: rowFrom p (y :: q) ys

/-- JavaScript `str.trim()`: strip leading and trailing whitespace. -/
def trimWs (s : List Char) : List Char :=
  ((s.dropWhile Char.isWhitespace).reverse.dropWhile Char.isWhitespace).reverse

/-- The normalisation both similarity arguments undergo in the source:
`str.toLowerCase().trim()`. -/
def normalize (s : List Char) : List Char :=
  trimWs (s.map Char.toLower)

/-- JavaScript `s.includes(sub)`: `sub` occurs as a contiguous substring
of `s`. -/
def includes (s sub : List Char) : Bool :=
  decide (sub <:+: s)

/-- The source's `calculateSimilarity`: exact match after normalisation,
then the substantial-containment shortcut, then the Levenshtein score
`1 - distance / max-length`.  Scores are modelled as rationals. -/
def calculateSimilarity (str1 str2 : List Char) : ℚ :=
  let s1 := normalize str1
  let s2 := normalize str2
  if s1 = s2 then 1
  else
    let ratio : ℚ := (min s1.length s2.length : ℚ) / (max s1.length s2.length : ℚ)
    let longer := if s1.length > s2.length then s1 else s2
    let shorter := if s1.length > s2.length then s2 else s1
    let levScore : ℚ :=
      if longer.length = 0 then 1
      else 1 - (getLevenshteinDistance shorter longer : ℚ) / (longer.length : ℚ)
    if (includes s1 s2 ∨ includes s2 s1) ∧ 7/10 < ratio then ratio
    else levScore

/-- Task priority (`'urgent' | 'high' | 'normal' | 'low'` in `types.ts`). -/
inductive Priority where
  | urgent
  | high
  | normal
  | low
deriving DecidableEq

/-- A task as defined in `types.ts`. -/
structure Task where
  title : List Char
  description : List Char
  priority : Priority
  dueDate : Option (List Char)
deriving DecidableEq

/-- Fallback value used when a list is indexed (indexing in the source is
always in range, so the default is never observed). -/
def defaultTask : Task :=
  { title := [], description := [], priority := Priority.normal, dueDate := none }

/-- `TaskWithMetadata` from the source: a task plus its batch index and an
optional source-meeting label. -/
structure TaskWithMetadata extends Task where
  index : Nat
  source : Option (List Char)
deriving DecidableEq

def defaultTaskMeta : TaskWithMetadata :=
  { toTask := defaultTask, index := 0, source := none }

/-- `tasks.map((t, i) => ({...t, index: i}))` in `deduplicateTasks`. -/
def withMeta (tasks : List Task) : List TaskWithMetadata :=
  tasks.enum.map (fun p => { toTask := p.2, index := p.1, source := none })

/-- The source's `findPotentialDuplicates`: the nested loop over all pairs
`i < j`, keeping those whose title similarity exceeds `0.6`. -/
def findPotentialDuplicates (tasks : List TaskWithMetadata) : List (Nat × Nat) :=
  (List.range tasks.length).flatMap (fun i =>
    (List.range' (i + 1) (tasks.length - (i + 1))).filterMap (fun j =>
      if 3/5 < calculateSimilarity (tasks.getD i defaultTaskMeta).title
          (tasks.getD j defaultTaskMeta).title
      then some (i, j) else none))

/-- `DuplicateMatch` from the source. -/
structure DuplicateMatch where
  taskIndex : Int
  duplicateOfIndex : Option Int
  reason : List Char
deriving DecidableEq

/-- `DeduplicationResult` from the source. -/
structure DeduplicationResult where
  duplicates : List DuplicateMatch
  uniqueTasks : List Task
  totalDuplicates : Nat
deriving DecidableEq

/-- One entry of the `duplicates` array in the oracle's parsed JSON
payload.  `reason` is optional because the source defaults it with
`dup.reason || 'Identified as duplicate'`. -/
structure RawDuplicate where
  taskIndex : Int
  duplicateOfIndex : Option Int
  reason : Option (List Char)
deriving DecidableEq

/-- JavaScript `dup.reason || 'Identified as duplicate'`: an absent or
empty reason string falls back to the default. -/
def reasonOrDefault (r : Option (List Char)) : List Char :=
  match r with
  | some (c :: cs) => c :: cs
  | _ => "Identified as duplicate".toList

/-- The per-entry mapping `parsed.duplicates.map(dup => ({taskIndex,
duplicateOfIndex, reason: dup.reason || default}))` of the source. -/
def rawToMatch (d : RawDuplicate) : DuplicateMatch :=
  { taskIndex := d.taskIndex
    duplicateOfIndex := d.duplicateOfIndex
    reason := reasonOrDefault d.reason }

/-- The observable behaviours of the semantic-equivalence oracle inside
`deduplicateTasks`, after the response has been fetched and examined:
the API call may throw, return a non-text block, return text with no
JSON object, return text whose JSON fails to parse, return JSON whose
`duplicates` field is absent or not an array, or return a well-formed
duplicates array. -/
inductive DedupOracleResponse where
  | apiError
  | nonText
  | noJson
  | badJson
  | missingDuplicates
  | duplicates (dups : List RawDuplicate)
deriving DecidableEq

/-- The source's `deduplicateTasks`.  `hasClient` records whether
`getAnthropicClient()` succeeds (a cached client or a set
`ANTHROPIC_API_KEY`); the returned `Nat` counts language-model calls.
All oracle behaviours other than a well-formed duplicates array are
absorbed by the defensive parsing or the surrounding `try`/`catch` into
the fail-open result. -/
def deduplicateTasks (hasClient : Bool) (oracle : DedupOracleResponse)
    (tasks : List Task) : Except (List Char) DeduplicationResult × Nat :=
  if tasks.isEmpty then
    (Except.ok { duplicates := [], uniqueTasks := [], totalDuplicates := 0 }, 0)
  else if hasClient = false then
    (Except.error ("ANTHROPIC_API_KEY environment variable is required".toList), 0)
  else
    let tasksWithMeta := withMeta tasks
    let potentialPairs := findPotentialDuplicates tasksWithMeta
    if potentialPairs.isEmpty then
      (Except.ok { duplicates := [], uniqueTasks := tasks, totalDuplicates := 0 }, 0)
    else
      match oracle with
      | .apiError | .nonText | .noJson | .badJson | .missingDuplicates =>
          (Except.ok { duplicates := [], uniqueTasks := tasks, totalDuplicates := 0 }, 1)
      | .duplicates dups =>
          let duplicates : List DuplicateMatch := dups.map rawToMatch
          let duplicateIndices := duplicates.map (fun d => d.taskIndex)
          let uniqueTasks := (tasksWithMeta.filter
              (fun t => !(duplicateIndices.contains (t.index : Int)))).map
            (fun t => t.toTask)
          (Except.ok
            { duplicates := duplicates
              uniqueTasks := uniqueTasks
              totalDuplicates := duplicates.length }, 1)

/-- An existing tracker item (`{ title, id }` in the source). -/
structure CacheEntry where
  title : List Char
  id : List Char
deriving DecidableEq

/-- One element of the result of `checkAgainstClickUp`. -/
structure CacheMatch where
  extractedTaskIndex : Nat
  clickupTaskId : List Char
  similarity : ℚ
deriving DecidableEq

/-- The source's `checkAgainstClickUp`: pairwise comparison of the batch
against the cached tracker items, keeping pairs with similarity above
`0.75`. -/
def checkAgainstClickUp (extractedTasks : List Task)
    (existingClickUpTasks : List CacheEntry) : List CacheMatch :=
  (List.range extractedTasks.length).flatMap (fun i =>
    existingClickUpTasks.filterMap (fun existingTask =>
      if 3/4 < calculateSimilarity (extractedTasks.getD i defaultTask).title
          existingTask.title
      then some
        { extractedTaskIndex := i
          clickupTaskId := existingTask.id
          similarity := calculateSimilarity (extractedTasks.getD i defaultTask).title
            existingTask.title }
      else none))

/-- One labelled batch handed to `mergeSimilarTasks`. -/
structure Meeting where
  meetingTitle : List Char
  tasks : List Task
deriving DecidableEq

/-- One merge group of the oracle's parsed JSON payload.  `mergeIndices`
is optional because the source defaults it with `merge.mergeIndices || []`,
and `mergedTask` is optional because a group without one is skipped. -/
structure MergeGroup where
  primaryIndex : Int
  mergeIndices : Option (List Int)
  mergedTask : Option Task
deriving DecidableEq

/-- The observable behaviours of the consolidation oracle inside
`mergeSimilarTasks`.  A parsed payload carries an optional `merges` array
(the source defaults it with `parsed.merges || []`). -/
inductive MergeOracleResponse where
  | apiError
  | nonText
  | noJson
  | badJson
  | parsed (merges : Option (List MergeGroup))
deriving DecidableEq

/-- The flattening loop at the top of `mergeSimilarTasks`: all tasks of
all meetings in order, tagged with their source meeting and a running
index. -/
def flattenWithSource (tasksByMeeting : List Meeting) : List TaskWithMetadata :=
  ((tasksByMeeting.flatMap (fun m =>
      m.tasks.map (fun t => (m.meetingTitle, t)))).enum).map
    (fun p => { toTask := p.2.2, index := p.1, source := some p.2.1 })

/-- One iteration of the `for (const merge of merges)` loop in
`mergeSimilarTasks`: a group carrying a `mergedTask` appends it to the
result and absorbs `primaryIndex` together with `mergeIndices || []` into
the merged-index set; a group without one is skipped. -/
def mergeStep (acc : List Task × List Int) (m : MergeGroup) : List Task × List Int :=
  match m.mergedTask with
  | some mt => (acc.1 ++ [mt], acc.2 ++ m.primaryIndex :: m.mergeIndices.getD [])
  | none => acc

/-- The merge-application loop of `mergeSimilarTasks` (lines 396-408 of
the source): fold over the merge groups, collecting the synthesized tasks
of groups that carry a `mergedTask` and the set of indices they absorb. -/
def applyMergesAcc (merges : List MergeGroup) : List Task × List Int :=
  merges.foldl mergeStep ([], [])

/-- Lines 396-420 of the source: the synthesized tasks followed by every
input task whose index was not absorbed by a merge group. -/
def applyMerges (merges : List MergeGroup) (allTasks : List TaskWithMetadata) :
    List Task :=
  (applyMergesAcc merges).1 ++
    (allTasks.filter
        (fun t => !((applyMergesAcc merges).2.contains (t.index : Int)))).map
      (fun t => t.toTask)

/-- The source's `mergeSimilarTasks`.  As with `deduplicateTasks`,
`hasClient` tells whether `getAnthropicClient()` succeeds (consulted only
after the candidate-pair check) and the `Nat` counts language-model
calls; every failure behaviour of the oracle falls back to the stripped
flattened list. -/
def mergeSimilarTasks (hasClient : Bool) (oracle : MergeOracleResponse)
    (tasksByMeeting : List Meeting) : Except (List Char) (List Task) × Nat :=
  if tasksByMeeting.isEmpty then
    (Except.ok [], 0)
  else
    let allTasksWithSource := flattenWithSource tasksByMeeting
    if allTasksWithSource.length ≤ 1 then
      (Except.ok (allTasksWithSource.map (fun t => t.toTask)), 0)
    else
      let potentialPairs := findPotentialDuplicates allTasksWithSource
      if potentialPairs.isEmpty then
        (Except.ok (allTasksWithSource.map (fun t => t.toTask)), 0)
      else if hasClient = false then
        (Except.error ("ANTHROPIC_API_KEY environment variable is required".toList), 0)
      else
        match oracle with
        | .apiError | .nonText | .noJson | .badJson =>
            (Except.ok (allTasksWithSource.map (fun t => t.toTask)), 1)
        | .parsed merges =>
            (Except.ok (applyMerges (merges.getD []) allTasksWithSource), 1)

/-- A test task with the given title (description empty, normal priority,
no due date), as in the spec's concrete examples. -/
def mkTask (s : List Char) : Task :=
  { title := s, description := [], priority := Priority.normal, dueDate := none }

/-- The three-title batch of the spec's candidate-pair example. -/
def demoTasks : List Task :=
  [mkTask "Schedule demo call".toList, mkTask "Schedule a demo call".toList,
    mkTask "Unrelated topic entirely".toList]

/-- One `DuplicateMatch` respects the spec's invariant relative to a full
duplicates list: `duplicateOfIndex`, when present, is strictly below
`taskIndex` and does not itself occur as a `taskIndex` (no chains). -/
def dupOk (dups : List DuplicateMatch) (m : DuplicateMatch) : Bool :=
  match m.duplicateOfIndex with
  | none => true
  | some k => decide (k < m.taskIndex) && dups.all (fun n => decide (¬ n.taskIndex = k))

/-- Every entry of a duplicates list respects the spec's invariant. -/
def chainFree (dups : List DuplicateMatch) : Bool :=
  dups.all (dupOk dups)

attribute [local semireducible] Rat.add Rat.sub Rat.mul Rat.inv

set_option maxRecDepth 40000

theorem lev_nil_left (ys : List Char) : lev [] ys = ys.length := by
  simp [lev]

theorem lev_nil_right (xs : List Char) : lev xs [] = xs.length := by
  cases xs <;> simp [lev]

theorem lev_cons_cons (x y : Char) (xs ys : List Char) :
    lev (x :: xs) (y :: ys) =
      if x = y then lev xs ys
      else 1 + min (lev xs ys) (min (lev (x :: xs) ys) (lev xs (y :: ys))) := by
  simp [lev]

theorem lev_self (xs : List Char) : lev xs xs = 0 := by
  induction xs with
  | nil => simp [lev]
  | cons x xs ih => simp [lev_cons_cons, ih]

theorem lev_eq_zero_iff (xs ys : List Char) : lev xs ys = 0 ↔ xs = ys := by
  induction xs, ys using lev.induct with
  | case1 ys => simp [lev_nil_left, List.length_eq_zero, eq_comm]
  | case2 x xs => simp [lev_nil_right]
  | case3 xs y ys ih => simp [lev_cons_cons, ih]
  | case4 x xs y ys hxy ih1 ih2 ih3 => simp [lev_cons_cons, hxy]

theorem lev_le_max (xs ys : List Char) :
    lev xs ys ≤ max xs.length ys.length := by
  induction xs, ys using lev.induct with
  | case1 ys => simp [lev_nil_left]
  | case2 x xs => simp [lev_nil_right]
  | case3 xs y ys ih =>
      simp only [lev_cons_cons, if_true, List.length_cons, if_pos rfl]
      calc lev xs ys ≤ max xs.length ys.length := ih
        _ ≤ max (xs.length + 1) (ys.length + 1) := by omega
  | case4 x xs y ys hxy ih1 ih2 ih3 =>
      simp only [lev_cons_cons, hxy, if_neg, List.length_cons, ite_false]
      have h1 : lev xs ys ≤ max xs.length ys.length := ih1
      have : min (lev xs ys) (min (lev (x :: xs) ys) (lev xs (y :: ys))) ≤
          lev xs ys := min_le_left _ _
      omega

theorem lev_symm (xs ys : List Char) : lev xs ys = lev ys xs := by
  induction xs, ys using lev.induct with
  | case1 ys => simp [lev_nil_left, lev_nil_right]
  | case2 x xs => simp [lev_nil_left, lev_nil_right]
  | case3 xs y ys ih =>
      rw [lev_cons_cons, lev_cons_cons, if_pos rfl, if_pos rfl, ih]
  | case4 x xs y ys hxy ih1 ih2 ih3 =>
      rw [lev_cons_cons, lev_cons_cons, if_neg hxy, if_neg (Ne.symm hxy),
        ih1, ih2, ih3]
      rw [min_comm (lev ys (x :: xs)) (lev (y :: ys) xs)]

theorem rowFrom_head (p q : List Char) (ys : List Char) :
    ∃ t, rowFrom p q ys = lev p q :: t := by
  cases ys <;> exact ⟨_, rfl⟩

theorem rowAux_rowFrom (x : Char) (p : List Char) :
    ∀ (ys q : List Char),
      rowAux x ys (rowFrom p q ys) (lev (x :: p) q) = rowFrom (x :: p) q ys := by
  intro ys
  induction ys with
  | nil => intro q; rfl
  | cons y ys ih =>
      intro q
      obtain ⟨t, ht⟩ := rowFrom_head p (y :: q) ys
      have hnew : (if x = y then lev p q
          else min (min (lev p q) (lev (x :: p) q)) (lev p (y :: q)) + 1) =
          lev (x :: p) (y :: q) := by
        rw [lev_cons_cons]
        by_cases hxy : x = y
        · simp [hxy]
        · simp only [hxy, if_false, ite_false]
          omega
      show rowAux x (y :: ys) (lev p q :: rowFrom p (y :: q) ys)
          (lev (x :: p) q) = rowFrom (x :: p) q (y :: ys)
      rw [ht]
      show lev (x :: p) q :: rowAux x ys (lev p (y :: q) :: t)
          (if x = y then lev p q
            else min (min (lev p q) (lev (x :: p) q)) (lev p (y :: q)) + 1) =
        rowFrom (x :: p) q (y :: ys)
      rw [hnew, ← ht, ih (y :: q)]
      rfl

theorem rowFrom_nil_left (ys : List Char) :
    ∀ q : List Char, rowFrom [] q ys = List.range' q.length (ys.length + 1) := by
  induction ys with
  | nil => intro q; simp [rowFrom, lev_nil_left, List.range']
  | cons y ys ih =>
      intro q
      simp only [rowFrom, lev_nil_left, List.length_cons, List.range']
      rw [ih (y :: q)]
      rfl

theorem levRows_rowFrom (s2 : List Char) :
    ∀ (xs p : List Char),
      levRows s2 xs (p.length + 1) (rowFrom p [] s2) =
        rowFrom (xs.reverse ++ p) [] s2 := by
  intro xs
  induction xs with
  | nil => intro p; simp [levRows]
  | cons x xs ih =>
      intro p
      show levRows s2 xs (p.length + 1 + 1) (rowAux x s2 (rowFrom p [] s2) (p.length + 1)) =
        rowFrom ((x :: xs).reverse ++ p) [] s2
      have hlast : p.length + 1 = lev (x :: p) [] := by
        rw [lev_nil_right]; rfl
      rw [hlast, rowAux_rowFrom x p s2 [], lev_nil_right]
      have hih := ih (x :: p)
      simp only [List.length_cons] at hih ⊢
      rw [hih]
      simp

theorem rowFrom_getD (p : List Char) (ys : List Char) :
    ∀ q : List Char, (rowFrom p q ys).getD ys.length 0 = lev p (ys.reverse ++ q) := by
  induction ys with
  | nil => intro q; simp [rowFrom]
  | cons y ys ih =>
      intro q
      simp only [rowFrom, List.length_cons, List.getD_cons_succ]
      rw [ih (y :: q)]
      simp

/-- The source's single-row dynamic-programming loop computes the reference
Levenshtein distance (on reversed inputs, because the loop consumes
characters left to right while `lev` recurses on heads). -/
theorem getLevenshteinDistance_eq (s1 s2 : List Char) :
    getLevenshteinDistance s1 s2 = lev s1.reverse s2.reverse := by
  unfold getLevenshteinDistance
  have h0 : List.range (s2.length + 1) = rowFrom [] [] s2 := by
    rw [rowFrom_nil_left s2 []]
    simp [List.range_eq_range']
  rw [h0]
  have h1 := levRows_rowFrom s2 s1 []
  simp only [List.length_nil, List.append_nil] at h1
  rw [h1, rowFrom_getD]
  simp

theorem getLevenshteinDistance_eq_zero_iff (s1 s2 : List Char) :
    getLevenshteinDistance s1 s2 = 0 ↔ s1 = s2 := by
  rw [getLevenshteinDistance_eq, lev_eq_zero_iff, List.reverse_inj]

theorem getLevenshteinDistance_le_max (s1 s2 : List Char) :
    getLevenshteinDistance s1 s2 ≤ max s1.length s2.length := by
  rw [getLevenshteinDistance_eq]
  have := lev_le_max s1.reverse s2.reverse
  simpa using this

theorem getLevenshteinDistance_symm (s1 s2 : List Char) :
    getLevenshteinDistance s1 s2 = getLevenshteinDistance s2 s1 := by
  rw [getLevenshteinDistance_eq, getLevenshteinDistance_eq, lev_symm]

theorem includes_iff (s sub : List Char) : includes s sub = true ↔ sub <:+: s := by
  simp [includes]

/-- If one normalised string contains the other and they have equal length,
they are equal. -/
theorem eq_of_includes_of_length_eq {s1 s2 : List Char}
    (h : includes s1 s2 = true ∨ includes s2 s1 = true)
    (hl : s1.length = s2.length) : s1 = s2 := by
  rcases h with h | h
  · exact ((includes_iff _ _).mp h).sublist.eq_of_length hl.symm |>.symm
  · exact ((includes_iff _ _).mp h).sublist.eq_of_length hl

theorem longer_length {s1 s2 : List Char} :
    (if s1.length > s2.length then s1 else s2).length = max s1.length s2.length := by
  split_ifs with h <;> omega

theorem shorter_length {s1 s2 : List Char} :
    (if s1.length > s2.length then s2 else s1).length = min s1.length s2.length := by
  split_ifs with h <;> omega

/-- The Levenshtein branch of `calculateSimilarity` evaluates to a value
in `[0, 1)` once the shorter/longer strings are distinct. -/
theorem levScore_bounds {s t : List Char} (hne : s ≠ t) (hlen : s.length ≤ t.length)
    (hz : ¬ t.length = 0) :
    0 ≤ 1 - (getLevenshteinDistance s t : ℚ) / (t.length : ℚ) ∧
      1 - (getLevenshteinDistance s t : ℚ) / (t.length : ℚ) < 1 := by
  have htQ : (0 : ℚ) < (t.length : ℚ) := by
    exact_mod_cast Nat.pos_of_ne_zero hz
  have hd : getLevenshteinDistance s t ≤ t.length := by
    have := getLevenshteinDistance_le_max s t
    omega
  have hd0 : getLevenshteinDistance s t ≠ 0 := fun h0 =>
    hne ((getLevenshteinDistance_eq_zero_iff s t).mp h0)
  constructor
  · have : (getLevenshteinDistance s t : ℚ) / (t.length : ℚ) ≤ 1 := by
      rw [div_le_one htQ]
      exact_mod_cast hd
    linarith
  · have : (0 : ℚ) < (getLevenshteinDistance s t : ℚ) / (t.length : ℚ) := by
      apply div_pos _ htQ
      exact_mod_cast Nat.pos_of_ne_zero hd0
    linarith

/-- Bounds and strictness of `calculateSimilarity` when the normalised
strings differ: every branch of the source returns a value in `[0, 1)`. -/
theorem calcSim_lt_one_of_ne {a b : List Char} (h : ¬ normalize a = normalize b) :
    0 ≤ calculateSimilarity a b ∧ calculateSimilarity a b < 1 := by
  have hmax : 0 < max (normalize a).length (normalize b).length := by
    rcases Nat.eq_zero_or_pos (max (normalize a).length (normalize b).length) with h0 | h0
    · exfalso
      apply h
      have h1 : (normalize a).length = 0 := by omega
      have h2 : (normalize b).length = 0 := by omega
      rw [List.length_eq_zero] at h1 h2
      rw [h1, h2]
    · exact h0
  simp only [calculateSimilarity, if_neg h]
  split_ifs with hc hgt hz hz
  · -- containment shortcut: value is min/max
    have hmaxQ : (0 : ℚ) < max ((normalize a).length : ℚ) ((normalize b).length : ℚ) := by
      have : ((0 : ℕ) : ℚ) < (max (normalize a).length (normalize b).length : ℚ) := by
        exact_mod_cast hmax
      push_cast at this
      simpa using this
    constructor
    · positivity
    · rw [div_lt_one hmaxQ]
      have hne : min (normalize a).length (normalize b).length ≠
          max (normalize a).length (normalize b).length := by
        intro he
        have hlen : (normalize a).length = (normalize b).length := by omega
        exact h (eq_of_includes_of_length_eq hc.1 hlen)
      have hlt : min (normalize a).length (normalize b).length <
          max (normalize a).length (normalize b).length := by omega
      exact_mod_cast hlt
  · -- `longer = normalize a`, which cannot be empty since it is the longer one
    exfalso
    omega
  · -- Levenshtein branch with `longer = normalize a`
    exact levScore_bounds (fun e => h e.symm) (le_of_lt hgt) hz
  · -- `longer = normalize b` empty forces both strings empty, contradiction
    exfalso
    apply h
    have h1 : (normalize a).length = 0 := by omega
    have h2 : (normalize b).length = 0 := by omega
    rw [List.length_eq_zero] at h1 h2
    rw [h1, h2]
  · -- Levenshtein branch with `longer = normalize b`
    exact levScore_bounds h (by omega) hz

theorem calculateSimilarity_self (a : List Char) : calculateSimilarity a a = 1 := by
  simp [calculateSimilarity]

theorem calculateSimilarity_nonneg (a b : List Char) :
    0 ≤ calculateSimilarity a b := by
  by_cases h : normalize a = normalize b
  · simp [calculateSimilarity, h]
  · exact (calcSim_lt_one_of_ne h).1

theorem calculateSimilarity_le_one (a b : List Char) :
    calculateSimilarity a b ≤ 1 := by
  by_cases h : normalize a = normalize b
  · simp [calculateSimilarity, h]
  · exact le_of_lt (calcSim_lt_one_of_ne h).2

theorem calculateSimilarity_eq_one_iff (a b : List Char) :
    calculateSimilarity a b = 1 ↔ normalize a = normalize b := by
  constructor
  · intro he
    by_contra h
    exact absurd he (ne_of_lt (calcSim_lt_one_of_ne h).2)
  · intro h
    simp [calculateSimilarity, h]

/-- C6: `calculateSimilarity` is symmetric in its two arguments — both
guards are symmetric, the containment ratio is symmetric in min/max, and
the shorter/longer selection picks the same pair either way (with the
Levenshtein distance itself symmetric when the lengths tie). -/
theorem calculateSimilarity_symm (a b : List Char) :
    calculateSimilarity a b = calculateSimilarity b a := by
  by_cases h : normalize a = normalize b
  · rw [calculateSimilarity, calculateSimilarity, if_pos h, if_pos h.symm]
  · have h' : ¬ normalize b = normalize a := fun e => h e.symm
    simp only [calculateSimilarity, if_neg h, if_neg h']
    have hR : (min ((normalize a).length : ℚ) ((normalize b).length : ℚ)) /
          (max ((normalize a).length : ℚ) ((normalize b).length : ℚ)) =
        (min ((normalize b).length : ℚ) ((normalize a).length : ℚ)) /
          (max ((normalize b).length : ℚ) ((normalize a).length : ℚ)) := by
      rw [min_comm, max_comm]
    have hG : ((includes (normalize a) (normalize b) = true ∨
            includes (normalize b) (normalize a) = true) ∧
          7/10 < (min ((normalize a).length : ℚ) ((normalize b).length : ℚ)) /
            (max ((normalize a).length : ℚ) ((normalize b).length : ℚ))) ↔
        ((includes (normalize b) (normalize a) = true ∨
            includes (normalize a) (normalize b) = true) ∧
          7/10 < (min ((normalize b).length : ℚ) ((normalize a).length : ℚ)) /
            (max ((normalize b).length : ℚ) ((normalize a).length : ℚ))) := by
      rw [← hR]
      constructor
      · rintro ⟨hc, hr⟩; exact ⟨hc.symm, hr⟩
      · rintro ⟨hc, hr⟩; exact ⟨hc.symm, hr⟩
    have hL : (if ((if (normalize a).length > (normalize b).length then normalize a
              else normalize b) : List Char).length = 0 then (1 : ℚ)
          else 1 - (getLevenshteinDistance
              (if (normalize a).length > (normalize b).length then normalize b
                else normalize a)
              (if (normalize a).length > (normalize b).length then normalize a
                else normalize b) : ℚ) /
            (((if (normalize a).length > (normalize b).length then normalize a
              else normalize b) : List Char).length : ℚ)) =
        (if ((if (normalize b).length > (normalize a).length then normalize b
              else normalize a) : List Char).length = 0 then (1 : ℚ)
          else 1 - (getLevenshteinDistance
              (if (normalize b).length > (normalize a).length then normalize a
                else normalize b)
              (if (normalize b).length > (normalize a).length then normalize b
                else normalize a) : ℚ) /
            (((if (normalize b).length > (normalize a).length then normalize b
              else normalize a) : List Char).length : ℚ)) := by
      rcases Nat.lt_trichotomy (normalize a).length (normalize b).length with hlt | heq | hgt
      · rw [if_neg (by omega : ¬ (normalize a).length > (normalize b).length),
          if_neg (by omega : ¬ (normalize a).length > (normalize b).length),
          if_pos hlt, if_pos hlt]
      · rw [if_neg (by omega : ¬ (normalize a).length > (normalize b).length),
          if_neg (by omega : ¬ (normalize a).length > (normalize b).length),
          if_neg (by omega : ¬ (normalize b).length > (normalize a).length),
          if_neg (by omega : ¬ (normalize b).length > (normalize a).length),
          heq, getLevenshteinDistance_symm]
      · rw [if_pos hgt, if_pos hgt,
          if_neg (by omega : ¬ (normalize b).length > (normalize a).length),
          if_neg (by omega : ¬ (normalize b).length > (normalize a).length)]
    exact if_congr hG hR hL

/-- Membership in the candidate-pair list is exactly the `i < j`,
`similarity > 0.6` contract. -/
theorem mem_findPotentialDuplicates (tasks : List TaskWithMetadata) (i j : Nat) :
    (i, j) ∈ findPotentialDuplicates tasks ↔
      i < j ∧ j < tasks.length ∧
        3/5 < calculateSimilarity (tasks.getD i defaultTaskMeta).title
          (tasks.getD j defaultTaskMeta).title := by
  simp only [findPotentialDuplicates, List.mem_flatMap, List.mem_range,
    List.mem_filterMap, List.mem_range']
  constructor
  · rintro ⟨i', hi', j', ⟨k, hk, hj'⟩, hif⟩
    split_ifs at hif with hsim
    rw [Option.some_inj, Prod.mk.injEq] at hif
    obtain ⟨rfl, rfl⟩ := hif
    exact ⟨by omega, by omega, hsim⟩
  · rintro ⟨hij, hj, hsim⟩
    refine ⟨i, by omega, j, ⟨j - (i + 1), by omega, by omega⟩, ?_⟩
    rw [if_pos hsim]

theorem withMeta_map_toTask (tasks : List Task) :
    (withMeta tasks).map (fun t => t.toTask) = tasks := by
  simp only [withMeta, List.map_map]
  have : ((fun t : TaskWithMetadata => t.toTask) ∘
      fun p : Nat × Task => ({ toTask := p.2, index := p.1, source := none } :
        TaskWithMetadata)) = Prod.snd := by
    funext p
    rfl
  rw [this, List.enum_map_snd]

theorem withMeta_map_index (tasks : List Task) :
    (withMeta tasks).map (fun t => t.index) = List.range tasks.length := by
  simp only [withMeta, List.map_map]
  have : ((fun t : TaskWithMetadata => t.index) ∘
      fun p : Nat × Task => ({ toTask := p.2, index := p.1, source := none } :
        TaskWithMetadata)) = Prod.fst := by
    funext p
    rfl
  rw [this, List.enum_map_fst]

theorem countP_add_countP_not {α : Type} (l : List α) (p : α → Bool) :
    l.countP p + l.countP (fun a => !(p a)) = l.length := by
  induction l with
  | nil => simp
  | cons x xs ih => by_cases h : p x <;> simp [List.countP_cons, h] <;> omega

/-- Counting the indices `0 .. n-1` that occur in a duplicate-free list of
integers all of which are such indices recovers the list's length. -/
theorem countP_range_contains (L : List Int) (n : Nat) (hnd : L.Nodup)
    (hin : ∀ x ∈ L, ∃ k : Nat, x = (k : Int) ∧ k < n) :
    (List.range n).countP (fun i => L.contains ((i : Nat) : Int)) = L.length := by
  rw [List.countP_eq_length_filter]
  have hMnd : (((List.range n).filter
      (fun i => L.contains ((i : Nat) : Int))).map (fun i => ((i : Nat) : Int))).Nodup := by
    apply List.Nodup.map
    · exact fun a b hab => Nat.cast_injective hab
    · exact (List.nodup_range n).filter _
  have hmem : ∀ x : Int, (x ∈ ((List.range n).filter
      (fun i => L.contains ((i : Nat) : Int))).map (fun i => ((i : Nat) : Int))) ↔ x ∈ L := by
    intro x
    simp only [List.mem_map, List.mem_filter, List.mem_range]
    constructor
    · rintro ⟨i, ⟨hi, hc⟩, rfl⟩
      simpa using hc
    · intro hx
      obtain ⟨k, rfl, hk⟩ := hin x hx
      exact ⟨k, ⟨hk, by simpa using hx⟩, rfl⟩
  have hperm := (List.perm_ext_iff_of_nodup hMnd hnd).mpr hmem
  have := hperm.length_eq
  simpa using this

/-- Filtering out the tasks whose index occurs in a duplicate-free,
in-range list of integers removes exactly one task per listed index. -/
theorem length_filter_not_contains (tasks : List Task) (L : List Int)
    (hnd : L.Nodup) (hin : ∀ x ∈ L, ∃ k : Nat, x = (k : Int) ∧ k < tasks.length) :
    ((withMeta tasks).filter
        (fun t => !(L.contains ((t.index : Nat) : Int)))).length + L.length
      = tasks.length := by
  have hsplit := countP_add_countP_not (withMeta tasks)
    (fun t => L.contains ((t.index : Nat) : Int))
  have hlen : (withMeta tasks).length = tasks.length := by
    simp [withMeta]
  have hmapped : (withMeta tasks).countP (fun t => L.contains ((t.index : Nat) : Int)) =
      (List.range tasks.length).countP (fun i => L.contains ((i : Nat) : Int)) := by
    rw [← withMeta_map_index tasks, List.countP_map]
    rfl
  have hcount := countP_range_contains L tasks.length hnd hin
  simp only [List.countP_eq_length_filter] at hsplit hmapped hcount
  omega

theorem foldl_mergeStep (merges : List MergeGroup) :
    ∀ acc : List Task × List Int,
      merges.foldl mergeStep acc =
        (acc.1 ++ (applyMergesAcc merges).1, acc.2 ++ (applyMergesAcc merges).2) := by
  induction merges with
  | nil => intro acc; simp [applyMergesAcc]
  | cons m ms ih =>
      intro acc
      rw [List.foldl_cons, ih (mergeStep acc m)]
      have hcons : applyMergesAcc (m :: ms) =
          ((mergeStep ([], []) m).1 ++ (applyMergesAcc ms).1,
            (mergeStep ([], []) m).2 ++ (applyMergesAcc ms).2) := by
        show List.foldl mergeStep (mergeStep ([], []) m) ms = _
        rw [ih (mergeStep ([], []) m)]
      rw [hcons]
      cases hm : m.mergedTask <;> simp [mergeStep, hm]

/-- The tasks collected by the merge loop are exactly the `mergedTask`
payloads of the groups that carry one. -/
theorem mem_applyMergesAcc_fst (merges : List MergeGroup) (t : Task) :
    t ∈ (applyMergesAcc merges).1 ↔ ∃ g ∈ merges, g.mergedTask = some t := by
  induction merges with
  | nil => simp [applyMergesAcc]
  | cons m ms ih =>
      have hcons : applyMergesAcc (m :: ms) =
          ((mergeStep ([], []) m).1 ++ (applyMergesAcc ms).1,
            (mergeStep ([], []) m).2 ++ (applyMergesAcc ms).2) := by
        show List.foldl mergeStep (mergeStep ([], []) m) ms = _
        rw [foldl_mergeStep ms (mergeStep ([], []) m)]
      rw [hcons]
      cases hm : m.mergedTask with
      | none => simp [mergeStep, hm, ih]
      | some mt =>
          simp [mergeStep, hm, ih]
          constructor
          · rintro (rfl | h)
            exacts [Or.inl rfl, Or.inr h]
          · rintro (rfl | h)
            exacts [Or.inl rfl, Or.inr h]

/-- The merged-index set collected by the merge loop is exactly the union
of `primaryIndex :: (mergeIndices || [])` over the groups that carry a
`mergedTask`; groups without one contribute nothing to it. -/
theorem mem_applyMergesAcc_snd (merges : List MergeGroup) (i : Int) :
    i ∈ (applyMergesAcc merges).2 ↔
      ∃ g ∈ merges, g.mergedTask.isSome ∧
        (i = g.primaryIndex ∨ i ∈ g.mergeIndices.getD []) := by
  induction merges with
  | nil => simp [applyMergesAcc]
  | cons m ms ih =>
      have hcons : applyMergesAcc (m :: ms) =
          ((mergeStep ([], []) m).1 ++ (applyMergesAcc ms).1,
            (mergeStep ([], []) m).2 ++ (applyMergesAcc ms).2) := by
        show List.foldl mergeStep (mergeStep ([], []) m) ms = _
        rw [foldl_mergeStep ms (mergeStep ([], []) m)]
      rw [hcons]
      cases hm : m.mergedTask with
      | none => simp [mergeStep, hm, ih]
      | some mt =>
          simp [mergeStep, hm, ih]
          exact or_assoc.symm

/-- C1 counterexample: with the batch nonempty and the API client not
obtainable (`ANTHROPIC_API_KEY` unset and no cached client),
`deduplicateTasks` propagates the `getAnthropicClient` exception to the
caller instead of returning a success-shaped result: the client is
acquired before the `try`/`catch` that absorbs oracle failures. -/
theorem deduplicateTasks_throws_without_client :
    (deduplicateTasks false DedupOracleResponse.apiError
        [mkTask "Pay invoice".toList]).1 =
      Except.error ("ANTHROPIC_API_KEY environment variable is required".toList) := by
  rfl

/-- C1 amended: whenever the API client is obtainable, `deduplicateTasks`
absorbs every behaviour of the oracle and returns a success-shaped
`DeduplicationResult` for every input batch. -/
theorem deduplicateTasks_never_throws_with_client
    (oracle : DedupOracleResponse) (tasks : List Task) :
    ∃ r, (deduplicateTasks true oracle tasks).1 = Except.ok r := by
  unfold deduplicateTasks
  by_cases he : tasks.isEmpty
  · rw [if_pos he]
    exact ⟨_, rfl⟩
  · rw [if_neg he, if_neg (by simp : ¬ (true = false))]
    dsimp only
    by_cases hp : (findPotentialDuplicates (withMeta tasks)).isEmpty
    · rw [if_pos hp]
      exact ⟨_, rfl⟩
    · rw [if_neg hp]
      cases oracle <;> exact ⟨_, rfl⟩

/-- C2: with an empty candidate-pair set, `deduplicateTasks` makes no
oracle call (call count 0) and returns the input batch unchanged as
`uniqueTasks` with no duplicates, and `mergeSimilarTasks` likewise makes
no oracle call and returns the stripped flattened list unchanged. -/
theorem no_candidate_pairs_no_oracle_call
    (oracle : DedupOracleResponse) (tasks : List Task) (hasClient : Bool)
    (moracle : MergeOracleResponse) (tasksByMeeting : List Meeting)
    (h1 : findPotentialDuplicates (withMeta tasks) = [])
    (h2 : findPotentialDuplicates (flattenWithSource tasksByMeeting) = []) :
    deduplicateTasks true oracle tasks =
      (Except.ok { duplicates := [], uniqueTasks := tasks, totalDuplicates := 0 }, 0) ∧
    mergeSimilarTasks hasClient moracle tasksByMeeting =
      (Except.ok ((flattenWithSource tasksByMeeting).map (fun t => t.toTask)), 0) := by
  constructor
  · unfold deduplicateTasks
    by_cases he : tasks.isEmpty
    · rw [if_pos he, List.isEmpty_iff.mp he]
    · rw [if_neg he, if_neg (by simp : ¬ (true = false))]
      dsimp only
      rw [if_pos (show (findPotentialDuplicates (withMeta tasks)).isEmpty = true by
        rw [h1]; rfl)]
  · unfold mergeSimilarTasks
    by_cases he : tasksByMeeting.isEmpty
    · rw [if_pos he, List.isEmpty_iff.mp he]
      rfl
    · rw [if_neg he]
      dsimp only
      by_cases hone : (flattenWithSource tasksByMeeting).length ≤ 1
      · rw [if_pos hone]
      · rw [if_neg hone]
        rw [if_pos (show (findPotentialDuplicates
            (flattenWithSource tasksByMeeting)).isEmpty = true by rw [h2]; rfl)]

/-- C2 witness: a two-task batch with dissimilar titles and a one-task
meeting list produce no candidate pairs, so both stages answer without
consulting the oracle. -/
theorem no_candidate_pairs_no_oracle_call_witness :
    deduplicateTasks true DedupOracleResponse.apiError
        [mkTask "Write weekly report".toList, mkTask "Bake a cake".toList] =
      (Except.ok
        { duplicates := []
          uniqueTasks := [mkTask "Write weekly report".toList, mkTask "Bake a cake".toList]
          totalDuplicates := 0 }, 0) ∧
    mergeSimilarTasks false MergeOracleResponse.apiError
        [{ meetingTitle := "Standup".toList, tasks := [mkTask "Write weekly report".toList] }] =
      (Except.ok ((flattenWithSource
        [{ meetingTitle := "Standup".toList,
           tasks := [mkTask "Write weekly report".toList] }]).map (fun t => t.toTask)), 0) :=
  no_candidate_pairs_no_oracle_call DedupOracleResponse.apiError
    [mkTask "Write weekly report".toList, mkTask "Bake a cake".toList] false
    MergeOracleResponse.apiError
    [{ meetingTitle := "Standup".toList, tasks := [mkTask "Write weekly report".toList] }]
    (by rfl) (by rfl)

/-- C3: whatever the batch, a response with no JSON payload, an unparseable
payload, or a payload whose duplicates field is absent or not a list makes
`deduplicateTasks` return the full batch as `uniqueTasks` with
`totalDuplicates = 0`, as a success value (no exception). -/
theorem malformed_oracle_fails_open
    (oracle : DedupOracleResponse) (tasks : List Task)
    (h : oracle = DedupOracleResponse.noJson ∨ oracle = DedupOracleResponse.badJson ∨
      oracle = DedupOracleResponse.missingDuplicates) :
    (deduplicateTasks true oracle tasks).1 =
      Except.ok { duplicates := [], uniqueTasks := tasks, totalDuplicates := 0 } := by
  unfold deduplicateTasks
  by_cases he : tasks.isEmpty
  · rw [if_pos he, List.isEmpty_iff.mp he]
  · rw [if_neg he, if_neg (by simp : ¬ (true = false))]
    dsimp only
    by_cases hp : (findPotentialDuplicates (withMeta tasks)).isEmpty
    · rw [if_pos hp]
    · rw [if_neg hp]
      rcases h with rfl | rfl | rfl <;> rfl

/-- C3 witness: a batch with two lexically similar titles (so the oracle
is actually consulted) and a response with no JSON payload still yields
the full batch unchanged. -/
theorem malformed_oracle_fails_open_witness :
    (deduplicateTasks true DedupOracleResponse.noJson
        [mkTask "Pay invoice".toList, mkTask "Pay invoices".toList]).1 =
      Except.ok
        { duplicates := []
          uniqueTasks := [mkTask "Pay invoice".toList, mkTask "Pay invoices".toList]
          totalDuplicates := 0 } :=
  malformed_oracle_fails_open DedupOracleResponse.noJson
    [mkTask "Pay invoice".toList, mkTask "Pay invoices".toList] (Or.inl rfl)

/-- C4 counterexample: the oracle may answer with `duplicateOfIndex`
strictly above `taskIndex` and `deduplicateTasks` accepts the response
unvalidated, so the returned duplicates list violates the claimed
invariant at this concrete input. -/
theorem dedup_accepts_chain_violating_response :
    (deduplicateTasks true (DedupOracleResponse.duplicates
        [{ taskIndex := 0, duplicateOfIndex := some 1,
           reason := some ("Same action".toList) }])
        [mkTask "Pay invoice".toList, mkTask "Pay invoices".toList]).1 =
      Except.ok
        { duplicates := [{ taskIndex := 0, duplicateOfIndex := some 1, reason := "Same action".toList }]
          uniqueTasks := [mkTask "Pay invoices".toList]
          totalDuplicates := 1 } ∧
    chainFree [{ taskIndex := 0, duplicateOfIndex := some 1, reason := "Same action".toList }] = false := by
  exact ⟨by rfl, by rfl⟩

/-- C4 amended: `deduplicateTasks` passes the oracle's reported matches
through unvalidated (defaulting only an absent reason), so the invariant
that `duplicateOfIndex` is strictly below `taskIndex` and never itself a
reported duplicate holds exactly when the oracle's reported list already
satisfies it. -/
theorem dedup_chainFree_when_oracle_chainFree
    (tasks : List Task) (dups : List RawDuplicate) (r : DeduplicationResult)
    (h : (deduplicateTasks true (DedupOracleResponse.duplicates dups) tasks).1 =
      Except.ok r)
    (hchain : chainFree (dups.map rawToMatch) = true) :
    chainFree r.duplicates = true := by
  unfold deduplicateTasks at h
  by_cases he : tasks.isEmpty
  · rw [if_pos he] at h
    obtain rfl := Except.ok.inj h
    rfl
  · rw [if_neg he, if_neg (by simp : ¬ (true = false))] at h
    dsimp only at h
    by_cases hp : (findPotentialDuplicates (withMeta tasks)).isEmpty
    · rw [if_pos hp] at h
      obtain rfl := Except.ok.inj h
      rfl
    · rw [if_neg hp] at h
      obtain rfl := Except.ok.inj h
      exact hchain

/-- C4 witness: an oracle answer that already satisfies the invariant
(index 1 a duplicate of index 0, no chains) passes through with the
invariant intact. -/
theorem dedup_chainFree_when_oracle_chainFree_witness :
    chainFree ((deduplicateTasks true (DedupOracleResponse.duplicates
        [{ taskIndex := 1, duplicateOfIndex := some 0, reason := none }])
        [mkTask "Pay invoice".toList, mkTask "Pay invoices".toList]).1.toOption.getD
      { duplicates := [], uniqueTasks := [], totalDuplicates := 0 }).duplicates = true :=
  dedup_chainFree_when_oracle_chainFree
    [mkTask "Pay invoice".toList, mkTask "Pay invoices".toList]
    [{ taskIndex := 1, duplicateOfIndex := some 0, reason := none }] _ (by rfl) (by rfl)

/-- C5: `calculateSimilarity` always lies in `[0, 1]`, equals `1` exactly
when the two strings agree after normalisation (lowercasing and
whitespace trimming), and in particular equals `1` on two copies of the
same string. -/
theorem calculateSimilarity_range_and_eq_one (a b : List Char) :
    0 ≤ calculateSimilarity a b ∧ calculateSimilarity a b ≤ 1 ∧
      (calculateSimilarity a b = 1 ↔ normalize a = normalize b) ∧
      calculateSimilarity a a = 1 :=
  ⟨calculateSimilarity_nonneg a b, calculateSimilarity_le_one a b,
    calculateSimilarity_eq_one_iff a b, calculateSimilarity_self a⟩

/-- C7 counterexample: on the spec's three-title batch the containment
shortcut does not fire for the pair (0,1) — neither normalised title is a
contiguous substring of the other (the inserted "a " breaks contiguity) —
so the pair is not admitted through the containment branch. -/
theorem demo_pair_containment_does_not_fire :
    ¬ (includes (normalize "Schedule demo call".toList)
          (normalize "Schedule a demo call".toList) = true ∨
       includes (normalize "Schedule a demo call".toList)
          (normalize "Schedule demo call".toList) = true) := by
  decide

/-- C7 amended: the three-title batch yields exactly the single candidate
pair (0,1), admitted through the Levenshtein branch with similarity
`9/10 > 3/5` (not through the containment shortcut, which does not fire),
and in general `findPotentialDuplicates` returns exactly the pairs
`(i, j)`, `i < j`, whose title similarity exceeds `0.6`. -/
theorem findPotentialDuplicates_demo_and_contract :
    findPotentialDuplicates (withMeta demoTasks) = [(0, 1)] ∧
    calculateSimilarity "Schedule demo call".toList "Schedule a demo call".toList = 9/10 ∧
    ∀ (tasks : List TaskWithMetadata) (i j : Nat),
      ((i, j) ∈ findPotentialDuplicates tasks ↔
        i < j ∧ j < tasks.length ∧
          3/5 < calculateSimilarity (tasks.getD i defaultTaskMeta).title
            (tasks.getD j defaultTaskMeta).title) :=
  ⟨by decide, by decide, mem_findPotentialDuplicates⟩

/-- C8: `checkAgainstClickUp` returns exactly the matches whose title
similarity against a cache entry exceeds `0.75`, each carrying that exact
similarity (the input batch itself is never altered — the function only
builds the advisory match list); on the spec's example the similarity is
`21/22 > 3/4` and the pair is returned. -/
theorem checkAgainstClickUp_contract :
    (∀ (batch : List Task) (cache : List CacheEntry) (m : CacheMatch),
      m ∈ checkAgainstClickUp batch cache ↔
        ∃ i, i < batch.length ∧ ∃ e ∈ cache,
          3/4 < calculateSimilarity (batch.getD i defaultTask).title e.title ∧
          m = { extractedTaskIndex := i, clickupTaskId := e.id,
                similarity := calculateSimilarity (batch.getD i defaultTask).title e.title }) ∧
    3/4 < calculateSimilarity "Update onboarding docs".toList "Update onboarding doc".toList ∧
    checkAgainstClickUp [mkTask "Update onboarding docs".toList]
        [{ title := "Update onboarding doc".toList, id := "cu1".toList }] =
      [{ extractedTaskIndex := 0, clickupTaskId := "cu1".toList, similarity := 21/22 }] := by
  refine ⟨?_, by decide, by decide⟩
  intro batch cache m
  simp only [checkAgainstClickUp, List.mem_flatMap, List.mem_range, List.mem_filterMap]
  constructor
  · rintro ⟨i, hi, e, he, hif⟩
    split_ifs at hif with hs
    rw [Option.some_inj] at hif
    exact ⟨i, hi, e, he, hs, hif.symm⟩
  · rintro ⟨i, hi, e, he, hs, rfl⟩
    exact ⟨i, hi, e, he, by rw [if_pos hs]⟩

theorem filter_not_contains_nil (tasks : List Task) :
    ((withMeta tasks).filter
        (fun t => !(([] : List Int).contains (t.index : Int)))).map (fun t => t.toTask)
      = tasks := by
  have : (withMeta tasks).filter
      (fun t => !(([] : List Int).contains (t.index : Int))) = withMeta tasks := by
    apply List.filter_eq_self.mpr
    intro t _
    rfl
  rw [this, withMeta_map_toTask]

/-- C9: whenever `deduplicateTasks` returns a success value, the result is
internally consistent: `totalDuplicates` is the length of the duplicates
list, `uniqueTasks` is exactly the in-order subsequence of the input whose
index does not occur among the reported `taskIndex` values, and when the
reported `taskIndex` values are distinct and in range the duplicates and
the unique tasks together account for every input task exactly once. -/
theorem dedup_result_internally_consistent
    (hasClient : Bool) (oracle : DedupOracleResponse)
    (tasks : List Task) (r : DeduplicationResult)
    (h : (deduplicateTasks hasClient oracle tasks).1 = Except.ok r) :
    r.totalDuplicates = r.duplicates.length ∧
    r.uniqueTasks = ((withMeta tasks).filter
        (fun t => !((r.duplicates.map (fun d => d.taskIndex)).contains (t.index : Int)))).map
      (fun t => t.toTask) ∧
    ((r.duplicates.map (fun d => d.taskIndex)).Nodup →
      (∀ x ∈ r.duplicates.map (fun d => d.taskIndex),
        ∃ k : Nat, x = (k : Int) ∧ k < tasks.length) →
      r.uniqueTasks.length + r.duplicates.length = tasks.length) := by
  unfold deduplicateTasks at h
  by_cases he : tasks.isEmpty
  · rw [if_pos he] at h
    obtain rfl := Except.ok.inj h
    rw [List.isEmpty_iff.mp he]
    refine ⟨rfl, by simp [withMeta], ?_⟩
    intro _ _
    simp
  · rw [if_neg he] at h
    by_cases hcl : hasClient = false
    · rw [if_pos hcl] at h
      exact absurd h (by simp)
    · rw [if_neg hcl] at h
      dsimp only at h
      by_cases hp : (findPotentialDuplicates (withMeta tasks)).isEmpty
      · rw [if_pos hp] at h
        obtain rfl := Except.ok.inj h
        refine ⟨rfl, (filter_not_contains_nil tasks).symm, ?_⟩
        intro _ _
        simp
      · rw [if_neg hp] at h
        cases oracle with
        | duplicates dups =>
            obtain rfl := Except.ok.inj h
            refine ⟨rfl, rfl, ?_⟩
            intro hnd hin
            have hcount := length_filter_not_contains tasks
              ((dups.map rawToMatch).map (fun d => d.taskIndex)) hnd hin
            simp only [List.length_map] at hcount ⊢
            simpa using hcount
        | apiError =>
            obtain rfl := Except.ok.inj h
            refine ⟨rfl, (filter_not_contains_nil tasks).symm, ?_⟩
            intro _ _
            simp
        | nonText =>
            obtain rfl := Except.ok.inj h
            refine ⟨rfl, (filter_not_contains_nil tasks).symm, ?_⟩
            intro _ _
            simp
        | noJson =>
            obtain rfl := Except.ok.inj h
            refine ⟨rfl, (filter_not_contains_nil tasks).symm, ?_⟩
            intro _ _
            simp
        | badJson =>
            obtain rfl := Except.ok.inj h
            refine ⟨rfl, (filter_not_contains_nil tasks).symm, ?_⟩
            intro _ _
            simp
        | missingDuplicates =>
            obtain rfl := Except.ok.inj h
            refine ⟨rfl, (filter_not_contains_nil tasks).symm, ?_⟩
            intro _ _
            simp

/-- C9 witness: a concrete successful run (two similar titles, the oracle
marking index 1 a duplicate of index 0) satisfies all three consistency
conjuncts. -/
theorem dedup_result_internally_consistent_witness :
    (1 : Nat) = 1 ∧
    [mkTask "Pay invoice".toList] = ((withMeta
        [mkTask "Pay invoice".toList, mkTask "Pay invoices".toList]).filter
        (fun t => !(([(1 : Int)]).contains (t.index : Int)))).map (fun t => t.toTask) ∧
    (([(1 : Int)]).Nodup →
      (∀ x ∈ [(1 : Int)], ∃ k : Nat, x = (k : Int) ∧ k < 2) →
      (1 : Nat) + 1 = 2) := by
  have := dedup_result_internally_consistent true
    (DedupOracleResponse.duplicates [{ taskIndex := 1, duplicateOfIndex := some 0, reason := none }])
    [mkTask "Pay invoice".toList, mkTask "Pay invoices".toList]
    { duplicates := [{ taskIndex := 1, duplicateOfIndex := some 0, reason := "Identified as duplicate".toList }]
      uniqueTasks := [mkTask "Pay invoice".toList]
      totalDuplicates := 1 } (by rfl)
  simpa using this

/-- C10: the merge-application step never silently drops a task.  The
merged-index set is contributed to exclusively by groups carrying a
`mergedTask` (a group without one contributes nothing), and every input
task either appears verbatim (stripped of metadata) in the output or its
index is absorbed by a group whose `mergedTask` is in the output. -/
theorem applyMerges_no_task_loss
    (merges : List MergeGroup) (allTasks : List TaskWithMetadata) :
    (∀ i : Int, i ∈ (applyMergesAcc merges).2 ↔
      ∃ g ∈ merges, g.mergedTask.isSome ∧
        (i = g.primaryIndex ∨ i ∈ g.mergeIndices.getD [])) ∧
    ∀ t ∈ allTasks,
      t.toTask ∈ applyMerges merges allTasks ∨
      ∃ g ∈ merges, ∃ mt, g.mergedTask = some mt ∧
        mt ∈ applyMerges merges allTasks ∧
        ((t.index : Int) = g.primaryIndex ∨ (t.index : Int) ∈ g.mergeIndices.getD []) := by
  refine ⟨mem_applyMergesAcc_snd merges, ?_⟩
  intro t ht
  by_cases hmem : (t.index : Int) ∈ (applyMergesAcc merges).2
  · right
    obtain ⟨g, hg, hsome, hcov⟩ := (mem_applyMergesAcc_snd merges _).mp hmem
    obtain ⟨mt, hmt⟩ := Option.isSome_iff_exists.mp hsome
    refine ⟨g, hg, mt, hmt, ?_, hcov⟩
    apply List.mem_append_left
    exact (mem_applyMergesAcc_fst merges mt).mpr ⟨g, hg, hmt⟩
  · left
    apply List.mem_append_right
    apply List.mem_map_of_mem
    rw [List.mem_filter]
    refine ⟨ht, ?_⟩
    simpa using hmem

/-- C10 witness: with one group merging indices 0 and 1 into a synthesized
task and one group lacking a `mergedTask`, the task at index 1 is covered
by the contributing group's synthesized output. -/
theorem applyMerges_no_task_loss_witness :
    ({ toTask := mkTask "Pay invoices".toList, index := 1,
        source := some ("Standup".toList) } : TaskWithMetadata).toTask ∈
      applyMerges
        [{ primaryIndex := 0, mergeIndices := some [1], mergedTask := some (mkTask "Pay all invoices".toList) },
         { primaryIndex := 2, mergeIndices := none, mergedTask := none }]
        [{ toTask := mkTask "Pay invoice".toList, index := 0, source := some ("Standup".toList) },
         { toTask := mkTask "Pay invoices".toList, index := 1, source := some ("Standup".toList) }] ∨
    ∃ g ∈ [({ primaryIndex := 0, mergeIndices := some [1], mergedTask := some (mkTask "Pay all invoices".toList) } : MergeGroup),
         { primaryIndex := 2, mergeIndices := none, mergedTask := none }],
      ∃ mt, g.mergedTask = some mt ∧
        mt ∈ applyMerges
          [{ primaryIndex := 0, mergeIndices := some [1], mergedTask := some (mkTask "Pay all invoices".toList) },
           { primaryIndex := 2, mergeIndices := none, mergedTask := none }]
          [{ toTask := mkTask "Pay invoice".toList, index := 0, source := some ("Standup".toList) },
           { toTask := mkTask "Pay invoices".toList, index := 1, source := some ("Standup".toList) }] ∧
        (((1 : Nat) : Int) = g.primaryIndex ∨ ((1 : Nat) : Int) ∈ g.mergeIndices.getD []) :=
  (applyMerges_no_task_loss
    [{ primaryIndex := 0, mergeIndices := some [1], mergedTask := some (mkTask "Pay all invoices".toList) },
     { primaryIndex := 2, mergeIndices := none, mergedTask := none }]
    [{ toTask := mkTask "Pay invoice".toList, index := 0, source := some ("Standup".toList) },
     { toTask := mkTask "Pay invoices".toList, index := 1, source := some ("Standup".toList) }]).2
    { toTask := mkTask "Pay invoices".toList, index := 1, source := some ("Standup".toList) }
    (by decide)

end Dedup

